import Mathlib

set_option maxRecDepth 8000
set_option linter.unnecessarySimpa false

/-! Shallow embedding of the URL classification and rewriting logic of the
IDE-Link-Interceptor browser extension (src/extension/content.js) and of its
protocol-registration helper (src/scripts/package.js).  URLs are modelled as
lists of characters; the JavaScript regular expressions of the source are
translated into explicit, executable matching functions over those lists.
Definitions come first, then the theorems about them. -/

/-! ### Generic string-as-list primitives -/

/-- Model of the JavaScript String.startsWith (and of anchored literal regex
fragments): Boolean prefix test on character lists. -/
def listStartsWith : List Char → List Char → Bool
  | [], _ => true
  | _ :: _, [] => false
  | a :: as, b :: bs => a == b && listStartsWith as bs

/-- Model of the JavaScript String.includes: Boolean substring test. -/
def listContainsSub (pat : List Char) : List Char → Bool
  | [] => pat.isEmpty
  | c :: cs => listStartsWith pat (c :: cs) || listContainsSub pat cs

/-- Model of the JavaScript String.endsWith: Boolean suffix test. -/
def listEndsWith (pat l : List Char) : Bool :=
  listStartsWith pat.reverse l.reverse

/-- Matches the regex fragment ^([^:]+): — returns the (nonempty, colon-free)
group together with the remainder after the colon. -/
def splitScheme (url : List Char) : Option (List Char × List Char) :=
  if url.takeWhile (· != ':') = [] then none
  else if (url.drop (url.takeWhile (· != ':')).length).take 1 = [':'] then
    some (url.takeWhile (· != ':'), url.drop ((url.takeWhile (· != ':')).length + 1))
  else none

/-- Matches the regex fragment ([^/]+)\/ at the front of the input — returns the
group and the remainder after the slash. -/
def segSlash (r : List Char) : Option (List Char × List Char) :=
  if r.takeWhile (· != '/') = [] then none
  else if (r.drop (r.takeWhile (· != '/')).length).take 1 = ['/'] then
    some (r.takeWhile (· != '/'), r.drop ((r.takeWhile (· != '/')).length + 1))
  else none

/-- Strips a literal prefix, or fails. -/
def dropPrefixIf (p l : List Char) : Option (List Char) :=
  if listStartsWith p l then some (l.drop p.length) else none

/-- The characters the regex dot metacharacter refuses to match. -/
def isLineTerm (c : Char) : Bool :=
  c == '\n' || c == '\r' || c == '\u2028' || c == '\u2029'

/-! ### The data model: target protocols (content.js lines 15-42) -/

/-- Target IDE protocols: the SUPPORTED_PROTOCOLS set of content.js. -/
inductive Protocol
  | vscode
  | vscodeInsiders
  | antigravity
  | cursor
  | windsurf
deriving DecidableEq

def protoName : Protocol → List Char
  | .vscode => "vscode".toList
  | .vscodeInsiders => "vscode-insiders".toList
  | .antigravity => "antigravity".toList
  | .cursor => "cursor".toList
  | .windsurf => "windsurf".toList

def SUPPORTED_PROTOCOLS : List Protocol :=
  [.vscode, .vscodeInsiders, .antigravity, .cursor, .windsurf]

/-- The IDE protocol URL prefixes the extension intercepts (content.js VSCODE_PROTOCOLS). -/
def VSCODE_PROTOCOLS : List (List Char) :=
  ["vscode:".toList, "vscode-insiders:".toList, "antigravity:".toList,
   "cursor:".toList, "windsurf:".toList, "vscodium:".toList]

def VSCODE_EXTENSION_SCHEMES : List (List Char) :=
  ["vscode".toList, "vscode-insiders".toList]

def VSCODE_DEV_REDIRECT_PATTERNS : List (List Char) :=
  ["vscode.dev/redirect".toList, "insiders.vscode.dev/redirect".toList]

/-- content.js MCP_REPO_MAP: the static server-name → GitHub-repository table. -/
def MCP_REPO_MAP (serverName : List Char) : Option (List Char) :=
  if serverName = "huggingface".toList then
    some "https://github.com/huggingface/hf-mcp-server".toList
  else if serverName = "hf-mcp-server".toList then
    some "https://github.com/huggingface/hf-mcp-server".toList
  else none

/-! ### Auth-callback detection (content.js isAuthCallbackUrl, lines 52-57) -/

/-- Group 2 of the regex ^([^:]+):\/\/([^/]+)\/ . -/
def matchAuthReg1 (url : List Char) : Option (List Char) :=
  match splitScheme url with
  | none => none
  | some (_, r) =>
      if r.take 2 = ['/', '/'] then
        match segSlash (r.drop 2) with
        | some (prov, _) => some prov
        | none => none
      else none

/-- Group 2 of the regex ^([^:]+):([^/]+)\/ . -/
def matchAuthReg2 (url : List Char) : Option (List Char) :=
  match splitScheme url with
  | none => none
  | some (_, r) =>
      match segSlash r with
      | some (prov, _) => some prov
      | none => none

/-- The provider component extracted by isAuthCallbackUrl (match?.[2] with the empty
string as the fallback): the first regex is tried, then the second. -/
def authCallbackProvider (url : List Char) : List Char :=
  match matchAuthReg1 url with
  | some p => p
  | none =>
      match matchAuthReg2 url with
      | some p => p
      | none => []

/-- content.js isAuthCallbackUrl: the provider component, lowercased, contains
the substring "authentication". -/
def isAuthCallbackUrl (url : List Char) : Bool :=
  listContainsSub "authentication".toList ((authCallbackProvider url).map Char.toLower)

/-! ### Protocol rewriting (content.js getProtocolPrefix and convertToTargetUrl) -/

/-- content.js getProtocolPrefix: Antigravity uses the antigravity:// shape, every
other IDE uses the bare protocol: shape. -/
def getProtocolPrefix (tp : Protocol) : List Char :=
  if tp = Protocol.antigravity then protoName tp ++ "://".toList
  else protoName tp ++ ":".toList

/-- content.js isVSCodeUrl. -/
def isVSCodeUrl (url : List Char) : Bool :=
  VSCODE_PROTOCOLS.any (fun p => listStartsWith p url)

/-- content.js isVSCodeDevRedirectUrl. -/
def isVSCodeDevRedirectUrl (url : List Char) : Bool :=
  VSCODE_DEV_REDIRECT_PATTERNS.any (fun p => listContainsSub p url)

/-- content.js convertToTargetUrl (lines 345-364): auth callbacks and URLs already
on the target protocol are returned unchanged; otherwise the first matching source
protocol prefix is replaced by the target protocol prefix. -/
def convertToTargetUrl (tp : Protocol) (url : List Char) : List Char :=
  if isAuthCallbackUrl url then url
  else if listStartsWith (protoName tp ++ [':']) url
       || listStartsWith (protoName tp ++ [':', '/', '/']) url then url
  else
    match VSCODE_PROTOCOLS.find? (fun p => listStartsWith p url) with
    | some p => getProtocolPrefix tp ++ url.drop p.length
    | none => url

/-! ### MCP URLs (content.js isMcpUrl / extractMcpServerName, lines 136-168) -/

/-- content.js isMcpUrl: the regex ^(vscode|vscode-insiders):mcp\/ . -/
def isMcpUrl (url : List Char) : Bool :=
  listStartsWith "vscode:mcp/".toList url
    || listStartsWith "vscode-insiders:mcp/".toList url

/-- One attempt, at a fixed position, of the regex tail
\/servers\/[^/]+\/([^/?#]+) : the literal /servers/, a nonempty slash-free id
segment, a slash, then the nonempty captured name segment. -/
def matchServersAt (l : List Char) : Option (List Char) :=
  match dropPrefixIf "/servers/".toList l with
  | none => none
  | some r =>
      match segSlash r with
      | none => none
      | some (_, r2) =>
          if r2.takeWhile (fun c => c != '/' && c != '?' && c != '#') = [] then none
          else some (r2.takeWhile (fun c => c != '/' && c != '?' && c != '#'))

/-- Backtracking of the greedy dot-star before \/servers\/ : later match positions
are preferred, and the dot cannot cross a line terminator. -/
def lastServers : List Char → Option (List Char)
  | [] => none
  | c :: cs =>
      match (if isLineTerm c then none else lastServers cs) with
      | some n => some n
      | none => matchServersAt (c :: cs)

/-- Group 2 of the regex ^(vscode|vscode-insiders):mcp\/by-name\/([^/?#]+) . -/
def byNameMatch (url : List Char) : Option (List Char) :=
  match
    (match dropPrefixIf "vscode:mcp/by-name/".toList url with
     | some r => some r
     | none => dropPrefixIf "vscode-insiders:mcp/by-name/".toList url) with
  | none => none
  | some r =>
      if r.takeWhile (fun c => c != '/' && c != '?' && c != '#') = [] then none
      else some (r.takeWhile (fun c => c != '/' && c != '?' && c != '#'))

/-- Group 2 of the regex
^(vscode|vscode-insiders):mcp\/api\.mcp\.github\.com.*\/servers\/[^/]+\/([^/?#]+) . -/
def apiMatch (url : List Char) : Option (List Char) :=
  match
    (match dropPrefixIf "vscode:mcp/api.mcp.github.com".toList url with
     | some r => some r
     | none => dropPrefixIf "vscode-insiders:mcp/api.mcp.github.com".toList url) with
  | none => none
  | some r => lastServers r

/-- content.js extractMcpServerName: the by-name shape is tried first, then the
api.mcp.github.com servers shape; null when neither matches. -/
def extractMcpServerName (url : List Char) : Option (List Char) :=
  if isMcpUrl url = false then none
  else
    match byNameMatch url with
    | some n => some n
    | none => apiMatch url

/-! ### Marketplace extension links (content.js parseVSCodeExtensionId, line 281) -/

/-- content.js parseVSCodeExtensionId: the regex ^([^:]+):(\/\/)?extension\/([^?#]+)
followed by the VSCODE_EXTENSION_SCHEMES membership test on the scheme. -/
def parseVSCodeExtensionId (url : List Char) : Option (List Char) :=
  match splitScheme url with
  | none => none
  | some (scheme, r) =>
      match
        (if r.take 2 = ['/', '/'] then dropPrefixIf "extension/".toList (r.drop 2)
         else dropPrefixIf "extension/".toList r) with
      | none => none
      | some r2 =>
          if r2.takeWhile (fun c => c != '?' && c != '#') = [] then none
          else if VSCODE_EXTENSION_SCHEMES.contains scheme then
            some (r2.takeWhile (fun c => c != '?' && c != '#'))
          else none

/-- content.js handleClick lines 709-711 and 720-722: the protocol URL the click
handler falls back to when external install delegation is unavailable. -/
def extensionFallbackUrl (tp : Protocol) (extensionId : List Char) : List Char :=
  if tp = Protocol.antigravity then "antigravity://".toList ++ extensionId
  else getProtocolPrefix tp ++ "extension/".toList ++ extensionId

/-! ### Byte-level text codecs: models of the platform URL / URI primitives the
content script calls (URLSearchParams percent-coding and decodeURIComponent) -/

def utf8Bytes (c : Char) : List Nat :=
  if c.toNat < 0x80 then [c.toNat]
  else if c.toNat < 0x800 then [0xC0 + c.toNat / 64, 0x80 + c.toNat % 64]
  else if c.toNat < 0x10000 then
    [0xE0 + c.toNat / 4096, 0x80 + (c.toNat / 64) % 64, 0x80 + c.toNat % 64]
  else
    [0xF0 + c.toNat / 262144, 0x80 + (c.toNat / 4096) % 64, 0x80 + (c.toNat / 64) % 64,
      0x80 + c.toNat % 64]

def byteListOf (s : List Char) : List Nat :=
  s.foldr (fun c acc => utf8Bytes c ++ acc) []

def hexVal? (b : Nat) : Option Nat :=
  if 0x30 ≤ b ∧ b ≤ 0x39 then some (b - 0x30)
  else if 0x41 ≤ b ∧ b ≤ 0x46 then some (b - 0x41 + 10)
  else if 0x61 ≤ b ∧ b ≤ 0x66 then some (b - 0x61 + 10)
  else none

def isContByte (b : Nat) : Bool :=
  if 0x80 ≤ b ∧ b ≤ 0xBF then true else false

/-- Strict UTF-8 decoding (overlong encodings and surrogates rejected), as
performed by decodeURIComponent, which throws on invalid input.  The fuel
argument, instantiated with the byte-list length, only bounds the recursion. -/
def utf8DecodeStrictFuel : Nat → List Nat → Option (List Char)
  | _, [] => some []
  | 0, _ :: _ => none
  | fuel + 1, b :: bs =>
      if b < 0x80 then (utf8DecodeStrictFuel fuel bs).map (fun l => Char.ofNat b :: l)
      else if 0xC2 ≤ b ∧ b ≤ 0xDF then
        match bs with
        | b1 :: bs1 =>
            if isContByte b1 then
              (utf8DecodeStrictFuel fuel bs1).map
                (fun l => Char.ofNat ((b - 0xC0) * 64 + (b1 - 0x80)) :: l)
            else none
        | [] => none
      else if 0xE0 ≤ b ∧ b ≤ 0xEF then
        match bs with
        | b1 :: b2 :: bs2 =>
            if (if b = 0xE0 then (if 0xA0 ≤ b1 ∧ b1 ≤ 0xBF then true else false)
                else if b = 0xED then (if 0x80 ≤ b1 ∧ b1 ≤ 0x9F then true else false)
                else isContByte b1) && isContByte b2 then
              (utf8DecodeStrictFuel fuel bs2).map
                (fun l => Char.ofNat ((b - 0xE0) * 4096 + (b1 - 0x80) * 64 + (b2 - 0x80)) :: l)
            else none
        | _ => none
      else if 0xF0 ≤ b ∧ b ≤ 0xF4 then
        match bs with
        | b1 :: b2 :: b3 :: bs3 =>
            if (if b = 0xF0 then (if 0x90 ≤ b1 ∧ b1 ≤ 0xBF then true else false)
                else if b = 0xF4 then (if 0x80 ≤ b1 ∧ b1 ≤ 0x8F then true else false)
                else isContByte b1) && isContByte b2 && isContByte b3 then
              (utf8DecodeStrictFuel fuel bs3).map
                (fun l => Char.ofNat ((b - 0xF0) * 262144 + (b1 - 0x80) * 4096
                  + (b2 - 0x80) * 64 + (b3 - 0x80)) :: l)
            else none
        | _ => none
      else none

def utf8DecodeStrict (l : List Nat) : Option (List Char) :=
  utf8DecodeStrictFuel l.length l

/-- Lenient UTF-8 decoding (invalid bytes become U+FFFD), as performed by the
URLSearchParams form decoder. -/
def utf8DecodeLenientFuel : Nat → List Nat → List Char
  | _, [] => []
  | 0, _ :: _ => []
  | fuel + 1, b :: bs =>
      if b < 0x80 then Char.ofNat b :: utf8DecodeLenientFuel fuel bs
      else if 0xC2 ≤ b ∧ b ≤ 0xDF then
        match bs with
        | b1 :: bs1 =>
            if isContByte b1 then
              Char.ofNat ((b - 0xC0) * 64 + (b1 - 0x80)) :: utf8DecodeLenientFuel fuel bs1
            else Char.ofNat 0xFFFD :: utf8DecodeLenientFuel fuel (b1 :: bs1)
        | [] => [Char.ofNat 0xFFFD]
      else if 0xE0 ≤ b ∧ b ≤ 0xEF then
        match bs with
        | b1 :: b2 :: bs2 =>
            if (if b = 0xE0 then (if 0xA0 ≤ b1 ∧ b1 ≤ 0xBF then true else false)
                else if b = 0xED then (if 0x80 ≤ b1 ∧ b1 ≤ 0x9F then true else false)
                else isContByte b1) && isContByte b2 then
              Char.ofNat ((b - 0xE0) * 4096 + (b1 - 0x80) * 64 + (b2 - 0x80))
                :: utf8DecodeLenientFuel fuel bs2
            else Char.ofNat 0xFFFD :: utf8DecodeLenientFuel fuel (b1 :: b2 :: bs2)
        | bs1 => Char.ofNat 0xFFFD :: utf8DecodeLenientFuel fuel bs1
      else if 0xF0 ≤ b ∧ b ≤ 0xF4 then
        match bs with
        | b1 :: b2 :: b3 :: bs3 =>
            if (if b = 0xF0 then (if 0x90 ≤ b1 ∧ b1 ≤ 0xBF then true else false)
                else if b = 0xF4 then (if 0x80 ≤ b1 ∧ b1 ≤ 0x8F then true else false)
                else isContByte b1) && isContByte b2 && isContByte b3 then
              Char.ofNat ((b - 0xF0) * 262144 + (b1 - 0x80) * 4096
                  + (b2 - 0x80) * 64 + (b3 - 0x80)) :: utf8DecodeLenientFuel fuel bs3
            else Char.ofNat 0xFFFD :: utf8DecodeLenientFuel fuel (b1 :: b2 :: b3 :: bs3)
        | bs1 => Char.ofNat 0xFFFD :: utf8DecodeLenientFuel fuel bs1
      else Char.ofNat 0xFFFD :: utf8DecodeLenientFuel fuel bs

def utf8DecodeLenient (l : List Nat) : List Char :=
  utf8DecodeLenientFuel l.length l

/-- Lenient percent decoding: a percent sign not followed by two hex digits is
kept verbatim. -/
def percentDecodeLenientFuel : Nat → List Nat → List Nat
  | _, [] => []
  | 0, l => l
  | fuel + 1, b :: rest =>
      if b = 0x25 then
        match rest with
        | a :: b2 :: rest2 =>
            match hexVal? a, hexVal? b2 with
            | some ha, some hb => (ha * 16 + hb) :: percentDecodeLenientFuel fuel rest2
            | _, _ => b :: percentDecodeLenientFuel fuel (a :: b2 :: rest2)
        | rest1 => b :: percentDecodeLenientFuel fuel rest1
      else b :: percentDecodeLenientFuel fuel rest

def percentDecodeLenient (l : List Nat) : List Nat :=
  percentDecodeLenientFuel l.length l

/-- Strict percent decoding: a percent sign not followed by two hex digits is an
error (decodeURIComponent throws). -/
def percentDecodeStrictFuel : Nat → List Nat → Option (List Nat)
  | _, [] => some []
  | 0, _ :: _ => none
  | fuel + 1, b :: rest =>
      if b = 0x25 then
        match rest with
        | a :: b2 :: rest2 =>
            match hexVal? a, hexVal? b2 with
            | some ha, some hb =>
                (percentDecodeStrictFuel fuel rest2).map (fun l => (ha * 16 + hb) :: l)
            | _, _ => none
        | _ => none
      else (percentDecodeStrictFuel fuel rest).map (fun l => b :: l)

def percentDecodeStrict (l : List Nat) : Option (List Nat) :=
  percentDecodeStrictFuel l.length l

/-- The application/x-www-form-urlencoded value decoder used by
URLSearchParams.get: plus becomes space, percent sequences become bytes,
the bytes are decoded leniently as UTF-8. -/
def formDecode (s : List Char) : List Char :=
  utf8DecodeLenient (percentDecodeLenient
    ((byteListOf s).map (fun b => if b = 0x2B then 0x20 else b)))

def hexDigitUpper (n : Nat) : Char :=
  if n < 10 then Char.ofNat (0x30 + n) else Char.ofNat (0x41 + (n - 10))

/-- Bytes the form serializer leaves unescaped: ASCII alphanumerics and
asterisk, hyphen, period, underscore. -/
def isFormSafeByte (b : Nat) : Bool :=
  if (0x30 ≤ b ∧ b ≤ 0x39) ∨ (0x41 ≤ b ∧ b ≤ 0x5A) ∨ (0x61 ≤ b ∧ b ≤ 0x7A)
      ∨ b = 0x2A ∨ b = 0x2D ∨ b = 0x2E ∨ b = 0x5F then true else false

def formEncodeByte (b : Nat) : List Char :=
  if b = 0x20 then ['+']
  else if isFormSafeByte b then [Char.ofNat b]
  else ['%', hexDigitUpper (b / 16), hexDigitUpper (b % 16)]

/-- The application/x-www-form-urlencoded serializer used by
URLSearchParams.toString on each name and value. -/
def formEncode (s : List Char) : List Char :=
  (byteListOf s).foldr (fun b acc => formEncodeByte b ++ acc) []

/-- Model of the JavaScript decodeURIComponent: strict percent decoding followed
by strict UTF-8 decoding; none models the thrown URIError. -/
def decodeUriComponent (s : List Char) : Option (List Char) :=
  match percentDecodeStrict (byteListOf s) with
  | none => none
  | some bs => utf8DecodeStrict bs

/-! ### URLSearchParams lookup -/

def ampSegAux : List Char → List Char → List (List Char)
  | [], cur => [cur.reverse]
  | c :: cs, cur => if c = '&' then cur.reverse :: ampSegAux cs [] else ampSegAux cs (c :: cur)

def ampSegments (l : List Char) : List (List Char) :=
  (ampSegAux l []).filter (fun seg => !seg.isEmpty)

def pairOfSegment (seg : List Char) : List Char × List Char :=
  (formDecode (seg.takeWhile (· != '=')),
   if (seg.drop (seg.takeWhile (· != '=')).length).take 1 = ['='] then
     formDecode ((seg.drop (seg.takeWhile (· != '=')).length).drop 1)
   else [])

/-- Model of new URLSearchParams(search).get(key): first pair with that name,
with form decoding of names and values. -/
def searchParamsGet (search key : List Char) : Option (List Char) :=
  (((ampSegments (if search.take 1 = ['?'] then search.drop 1 else search)).map
      pairOfSegment).find? (fun kv => kv.1 == key)).map (fun kv => kv.2)

/-! ### The platform URL parser model -/

structure UrlRec where
  scheme : List Char
  hostname : List Char
  pathname : List Char
  search : List Char
deriving DecidableEq

def isAsciiAlpha (c : Char) : Bool :=
  if ('a' ≤ c ∧ c ≤ 'z') ∨ ('A' ≤ c ∧ c ≤ 'Z') then true else false

def isAsciiDigit (c : Char) : Bool :=
  if '0' ≤ c ∧ c ≤ '9' then true else false

def isSchemeChar (c : Char) : Bool :=
  isAsciiAlpha c || isAsciiDigit c || c == '+' || c == '-' || c == '.'

def SPECIAL_SCHEMES : List (List Char) :=
  ["http".toList, "https".toList, "ws".toList, "wss".toList, "ftp".toList]

def toLowerList (l : List Char) : List Char := l.map Char.toLower

def urlSearchOf (afterPath : List Char) : List Char :=
  if afterPath.take 1 = ['?'] then
    if (afterPath.drop 1).takeWhile (· != '#') = [] then []
    else '?' :: (afterPath.drop 1).takeWhile (· != '#')
  else []

def urlParseAuthority (scheme r : List Char) : Option UrlRec :=
  if toLowerList ((r.takeWhile (fun c => c != '/' && c != '?' && c != '#')).takeWhile
      (· != ':')) = [] ∧ SPECIAL_SCHEMES.contains scheme then none
  else
    some { scheme := scheme,
           hostname := toLowerList ((r.takeWhile (fun c => c != '/' && c != '?' && c != '#')).takeWhile
             (· != ':')),
           pathname :=
             if (r.drop (r.takeWhile (fun c => c != '/' && c != '?' && c != '#')).length).takeWhile
                 (fun c => c != '?' && c != '#') = [] then ['/']
             else (r.drop (r.takeWhile (fun c => c != '/' && c != '?' && c != '#')).length).takeWhile
                 (fun c => c != '?' && c != '#'),
           search := urlSearchOf
             ((r.drop (r.takeWhile (fun c => c != '/' && c != '?' && c != '#')).length).drop
               ((r.drop (r.takeWhile (fun c => c != '/' && c != '?' && c != '#')).length).takeWhile
                 (fun c => c != '?' && c != '#')).length) }

/-- Model of the platform URL constructor for the URL shapes this extension
handles: an absolute URL with a valid scheme, an optional double-slash
authority, a path, a query and a fragment.  Whitespace stripping, path
normalization, component percent-encoding and special-scheme URLs written
without slashes are outside the model and count as parse failures, like any
other malformed URL. -/
def urlParse (url : List Char) : Option UrlRec :=
  match splitScheme url with
  | none => none
  | some (rawScheme, rest) =>
      match rawScheme with
      | [] => none
      | c0 :: _ =>
          if isAsciiAlpha c0 = false ∨ rawScheme.all isSchemeChar = false then none
          else if rest.take 2 = ['/', '/'] then
            urlParseAuthority (toLowerList rawScheme) (rest.drop 2)
          else if SPECIAL_SCHEMES.contains (toLowerList rawScheme) then none
          else
            some { scheme := toLowerList rawScheme, hostname := [],
                   pathname := rest.takeWhile (fun c => c != '?' && c != '#'),
                   search := urlSearchOf
                     (rest.drop (rest.takeWhile (fun c => c != '?' && c != '#')).length) }

/-! ### VSIX download links (content.js isVsixUrl / parseExtensionFromVsixUrl) -/

/-- The regex-tail .+\.vsix$ on an already-lowercased path: the dot cannot match
line terminators. -/
def dotPlusVsixTest (r : List Char) : Bool :=
  if r.length < 6 then false
  else if r.drop (r.length - 5) = ".vsix".toList ∧
      (r.take (r.length - 5)).all (fun c => !(isLineTerm c)) then true
  else false

/-- The regex ^\/api\/[^/]+\/[^/]+\/[^/]+\/file . -/
def openVsxFileTest (path : List Char) : Bool :=
  match dropPrefixIf "/api/".toList path with
  | none => false
  | some r =>
      match segSlash r with
      | none => false
      | some (_, r1) =>
          match segSlash r1 with
          | none => false
          | some (_, r2) =>
              if r2.takeWhile (· != '/') = [] then false
              else listStartsWith "/file".toList (r2.drop (r2.takeWhile (· != '/')).length)

/-- The regex ^\/_apis\/public\/gallery\/publisher\/[^/]+\/extension\/[^/]+\/[^/]+\/assetbyname\/ . -/
def vsassetsPathTest (path : List Char) : Bool :=
  match dropPrefixIf "/_apis/public/gallery/publisher/".toList path with
  | none => false
  | some r =>
      match segSlash r with
      | none => false
      | some (_, r1) =>
          match dropPrefixIf "extension/".toList r1 with
          | none => false
          | some r2 =>
              match segSlash r2 with
              | none => false
              | some (_, r3) =>
                  if r3.takeWhile (· != '/') = [] then false
                  else listStartsWith "/assetbyname/".toList
                    (r3.drop (r3.takeWhile (· != '/')).length)

/-- The regex ^\/_apis\/public\/gallery\/publishers\/[^/]+\/vsextensions\/[^/]+\/[^/]+\/vspackage$ . -/
def marketplacePathTest (path : List Char) : Bool :=
  match dropPrefixIf "/_apis/public/gallery/publishers/".toList path with
  | none => false
  | some r =>
      match segSlash r with
      | none => false
      | some (_, r1) =>
          match dropPrefixIf "vsextensions/".toList r1 with
          | none => false
          | some r2 =>
              match segSlash r2 with
              | none => false
              | some (_, r3) =>
                  if r3.takeWhile (· != '/') = [] then false
                  else r3.drop (r3.takeWhile (· != '/')).length == "/vspackage".toList

/-- The regex ^\/[^/]+\/[^/]+\/releases\/download\/[^/]+\/.+\.vsix$ . -/
def githubVsixPathTest (path : List Char) : Bool :=
  match dropPrefixIf "/".toList path with
  | none => false
  | some r =>
      match segSlash r with
      | none => false
      | some (_, r1) =>
          match segSlash r1 with
          | none => false
          | some (_, r2) =>
              match dropPrefixIf "releases/download/".toList r2 with
              | none => false
              | some r3 =>
                  match segSlash r3 with
                  | none => false
                  | some (_, r4) => dotPlusVsixTest r4

/-- The hostname and pathname tests of content.js isVsixUrl (both lowercased). -/
def vsixPathTest (hostname pathname : List Char) : Bool :=
  if listEndsWith ".vsix".toList pathname then true
  else if (hostname == "open-vsx.org".toList
        || listEndsWith ".open-vsx.org".toList hostname)
      && openVsxFileTest pathname then true
  else if listEndsWith ".gallery.vsassets.io".toList hostname
      && vsassetsPathTest pathname then true
  else if hostname == "marketplace.visualstudio.com".toList
      && marketplacePathTest pathname then true
  else if hostname == "github.com".toList && githubVsixPathTest pathname then true
  else false

/-- content.js isVsixUrl (lines 174-209): parse failures are caught and yield
false; only http and https URLs qualify. -/
def isVsixUrl (url : List Char) : Bool :=
  match urlParse url with
  | none => false
  | some u =>
      if u.scheme != "http".toList && u.scheme != "https".toList then false
      else vsixPathTest (toLowerList u.hostname) (toLowerList u.pathname)

structure ExtInfo where
  publisher : List Char
  name : List Char
  version : Option (List Char)
deriving DecidableEq

/-- The vsassets capture regex of parseExtensionFromVsixUrl (raw pathname). -/
def vsassetsParse (path : List Char) : Option ExtInfo :=
  match dropPrefixIf "/_apis/public/gallery/publisher/".toList path with
  | none => none
  | some r =>
      match segSlash r with
      | none => none
      | some (g1, r1) =>
          match dropPrefixIf "extension/".toList r1 with
          | none => none
          | some r2 =>
              match segSlash r2 with
              | none => none
              | some (g2, r3) =>
                  match segSlash r3 with
                  | none => none
                  | some (g3, r4) =>
                      match dropPrefixIf "assetbyname/".toList r4 with
                      | none => none
                      | some r5 =>
                          if r5 ≠ [] ∧ r5.all (fun c => !(isLineTerm c)) then
                            some ⟨g1, g2, some g3⟩
                          else none

/-- The marketplace capture regex of parseExtensionFromVsixUrl. -/
def marketplaceParse (path : List Char) : Option ExtInfo :=
  match dropPrefixIf "/_apis/public/gallery/publishers/".toList path with
  | none => none
  | some r =>
      match segSlash r with
      | none => none
      | some (g1, r1) =>
          match dropPrefixIf "vsextensions/".toList r1 with
          | none => none
          | some r2 =>
              match segSlash r2 with
              | none => none
              | some (g2, r3) =>
                  if r3.takeWhile (· != '/') = [] then none
                  else if r3.drop (r3.takeWhile (· != '/')).length == "/vspackage".toList then
                    some ⟨g1, g2, some (r3.takeWhile (· != '/'))⟩
                  else none

/-- The open-vsx capture regex ^\/api\/([^/]+)\/([^/]+)\/([^/]+)\/file(?:\/([^/]+))?$ . -/
def openVsxParse (path : List Char) : Option ExtInfo :=
  match dropPrefixIf "/api/".toList path with
  | none => none
  | some r =>
      match segSlash r with
      | none => none
      | some (g1, r1) =>
          match segSlash r1 with
          | none => none
          | some (g2, r2) =>
              if r2.takeWhile (· != '/') = [] then none
              else
                match dropPrefixIf "/file".toList
                    (r2.drop (r2.takeWhile (· != '/')).length) with
                | none => none
                | some r4 =>
                    if r4 = [] then some ⟨g1, g2, some (r2.takeWhile (· != '/'))⟩
                    else if r4.take 1 = ['/'] ∧ r4.drop 1 ≠ [] ∧
                        (r4.drop 1).all (· != '/') then
                      some ⟨g1, g2, some (r2.takeWhile (· != '/'))⟩
                    else none

/-- pathname.split('/').pop(): the segment after the last slash. -/
def lastSegment (l : List Char) : List Char :=
  (l.reverse.takeWhile (· != '/')).reverse

def firstIndexOfChar : List Char → Char → Option Nat
  | [], _ => none
  | c :: cs, d => if c = d then some 0 else (firstIndexOfChar cs d).map (· + 1)

def lastIndexOfChar : List Char → Char → Option Nat
  | [], _ => none
  | c :: cs, d =>
      match lastIndexOfChar cs d with
      | some k => some (k + 1)
      | none => if c = d then some 0 else none

/-- The filename regex ^(.+)\.vsix$ with the case-insensitive flag: the raw base
name of a .vsix filename. -/
def vsixBaseName (fn : List Char) : Option (List Char) :=
  if fn.length < 6 then none
  else if toLowerList (fn.drop (fn.length - 5)) = ".vsix".toList ∧
      (fn.take (fn.length - 5)).all (fun c => !(isLineTerm c)) then
    some (fn.take (fn.length - 5))
  else none

/-- The dotIndex > 0 split of the publisher.name part. -/
def mkFromNamePart (namePart : List Char) (version : Option (List Char)) : Option ExtInfo :=
  match firstIndexOfChar namePart '.' with
  | some d =>
      if d > 0 then some ⟨namePart.take d, namePart.drop (d + 1), version⟩ else none
  | none => none

/-- The JavaScript truthiness coercion version || undefined on a string. -/
def emptyToNone (v : List Char) : Option (List Char) :=
  if v = [] then none else some v

/-- The publisher.name-version.vsix filename fallback of parseExtensionFromVsixUrl. -/
def filenameParse (pathname : List Char) : Option ExtInfo :=
  match vsixBaseName (lastSegment pathname) with
  | none => none
  | some baseName =>
      match lastIndexOfChar baseName '-' with
      | some k =>
          if k > 0 then
            mkFromNamePart (baseName.take k) (emptyToNone (baseName.drop (k + 1)))
          else mkFromNamePart baseName none
      | none => mkFromNamePart baseName none

/-- content.js parseExtensionFromVsixUrl (lines 214-265): registry-specific
regexes in order, then the filename fallback; parse failures yield null. -/
def parseExtensionFromVsixUrl (url : List Char) : Option ExtInfo :=
  match urlParse url with
  | none => none
  | some u =>
      match (if listEndsWith ".gallery.vsassets.io".toList (toLowerList u.hostname) then
               vsassetsParse u.pathname
             else none) with
      | some e => some e
      | none =>
          match (if toLowerList u.hostname == "marketplace.visualstudio.com".toList then
                   marketplaceParse u.pathname
                 else none) with
          | some e => some e
          | none =>
              match openVsxParse u.pathname with
              | some e => some e
              | none => filenameParse u.pathname

/-- content.js buildVsixInstallUrl parameter list: url first, then name (only
when publisher and name are both nonempty), then version (only when nonempty). -/
def vsixParams (vsixUrl : List Char) (extInfo : Option ExtInfo) :
    List (List Char × List Char) :=
  ("url".toList, vsixUrl) ::
    ((match extInfo with
      | some e =>
          if e.publisher ≠ [] ∧ e.name ≠ [] then
            [("name".toList, e.publisher ++ '.' :: e.name)]
          else []
      | none => []) ++
     (match extInfo with
      | some e =>
          match e.version with
          | some v => if v ≠ [] then [("version".toList, v)] else []
          | none => []
      | none => []))

def intercalateAmp : List (List Char) → List Char
  | [] => []
  | [x] => x
  | x :: xs => x ++ '&' :: intercalateAmp xs

/-- URLSearchParams.toString. -/
def formSerialize (params : List (List Char × List Char)) : List Char :=
  intercalateAmp (params.map (fun kv => formEncode kv.1 ++ '=' :: formEncode kv.2))

/-- content.js buildVsixInstallUrl (lines 270-279). -/
def buildVsixInstallUrl (tp : Protocol) (vsixUrl : List Char)
    (extInfo : Option ExtInfo) : List Char :=
  protoName tp ++ "://extension/install?".toList ++ formSerialize (vsixParams vsixUrl extInfo)

/-! ### vscode.dev redirect links (content.js convertVSCodeDevToProtocol) -/

/-- The JavaScript String.replace with a string pattern and an empty replacement:
removes the first occurrence. -/
def replaceFirst : List Char → List Char → List Char
  | [], _ => []
  | c :: cs, pat =>
      if listStartsWith pat (c :: cs) then (c :: cs).drop pat.length
      else c :: replaceFirst cs pat

/-- Format 2 of convertVSCodeDevToProtocol: strip /redirect from the path, drop a
leading slash, prepend the target protocol prefix and keep the query string. -/
def devRedirectPathForm (tp : Protocol) (u : UrlRec) : Option (List Char) :=
  some (getProtocolPrefix tp ++
    (if (replaceFirst u.pathname "/redirect".toList).take 1 = ['/'] then
       (replaceFirst u.pathname "/redirect".toList).drop 1
     else replaceFirst u.pathname "/redirect".toList) ++ u.search)

/-- content.js convertVSCodeDevToProtocol (lines 298-340): format 1 decodes the
url query parameter and replaces its scheme (auth callbacks pass through
undecoded); format 2 rebuilds from the path; parse or decode failures yield
null. -/
def convertVSCodeDevToProtocol (tp : Protocol) (url : List Char) : Option (List Char) :=
  match urlParse url with
  | none => none
  | some u =>
      match searchParamsGet u.search "url".toList with
      | some urlParam =>
          if urlParam = [] then devRedirectPathForm tp u
          else
            match decodeUriComponent urlParam with
            | none => none
            | some decodedUrl =>
                if isAuthCallbackUrl decodedUrl then some decodedUrl
                else
                  match VSCODE_PROTOCOLS.find? (fun p => listStartsWith p decodedUrl) with
                  | some p => some (getProtocolPrefix tp ++ decodedUrl.drop p.length)
                  | none => some decodedUrl
      | none => devRedirectPathForm tp u

/-! ### The click handler decision pipeline (content.js handleClick, lines 672-811) -/

/-- The possible replies of the background script to the installExtension
message, including the communication-failure path. -/
inductive NativeResponse
  | success
  | notInstalled
  | otherError
  | commFailure
deriving DecidableEq

/-- The observable outcome of one click: let the browser handle it, a native
install (successful or failed), a navigation, the MCP instruction modal, or an
intercepted click with no further action. -/
inductive ClickOutcome
  | browserDefault
  | installedNatively
  | installFailed
  | navigate (url : List Char)
  | mcpInstructions (serverName repoUrl : List Char)
  | intercepted
deriving DecidableEq

/-- The final plain-protocol section of handleClick (lines 795-811). -/
def plainProtocolStep (tp : Protocol) (href : List Char) : ClickOutcome :=
  if isVSCodeUrl href = false then .browserDefault
  else if convertToTargetUrl tp href = href then .browserDefault
  else .navigate (convertToTargetUrl tp href)

/-- content.js handleClick, as a pure decision function of the target protocol,
the clicked href and the native-host reply. -/
def handleClick (tp : Protocol) (href : List Char) (resp : NativeResponse) : ClickOutcome :=
  if isAuthCallbackUrl href then .browserDefault
  else
    match parseVSCodeExtensionId href with
    | some extensionId =>
        if VSCODE_EXTENSION_SCHEMES.contains (protoName tp)
            && listStartsWith (protoName tp ++ [':']) href then .browserDefault
        else
          match resp with
          | .success => .installedNatively
          | .notInstalled => .navigate (extensionFallbackUrl tp extensionId)
          | .otherError => .installFailed
          | .commFailure => .navigate (extensionFallbackUrl tp extensionId)
    | none =>
        if isVSCodeDevRedirectUrl href then
          match convertVSCodeDevToProtocol tp href with
          | none => .browserDefault
          | some targetUrl => .navigate targetUrl
        else if isVsixUrl href then
          .navigate (buildVsixInstallUrl tp href (parseExtensionFromVsixUrl href))
        else if isMcpUrl href then
          if tp = Protocol.antigravity then
            match extractMcpServerName href with
            | some serverName =>
                match MCP_REPO_MAP serverName with
                | some repoUrl => .mcpInstructions serverName repoUrl
                | none => .intercepted
            | none => plainProtocolStep tp href
          else if convertToTargetUrl tp href = href then plainProtocolStep tp href
          else .navigate (convertToTargetUrl tp href)
        else plainProtocolStep tp href

/-! ### The protocol-registration helper (src/scripts/package.js) -/

structure RegResult where
  success : Bool
  error : Option (List Char)
deriving DecidableEq

/-- The per-user registry, as key-path → default-value bindings (later entries
shadow earlier ones). -/
structure RegistryState where
  entries : List (List Char × List Char)
deriving DecidableEq

/-- The ambient system: file existence, and whether a PowerShell registry write
to a given key succeeds (with its error text when it fails). -/
structure SysEnv where
  fileExists : List Char → Bool
  writeOk : List Char → Bool
  writeErr : List Char → List Char

def setReg (st : RegistryState) (k v : List Char) : RegistryState :=
  ⟨(k, v) :: st.entries⟩

/-- package.js writeRegistry: on success the key default value is set; on
failure the registry is unchanged and the error text is reported. -/
def writeRegistry (env : SysEnv) (keyPath value : List Char) (st : RegistryState) :
    RegResult × RegistryState :=
  if env.writeOk keyPath then ({ success := true, error := none }, setReg st keyPath value)
  else ({ success := false, error := some (env.writeErr keyPath) }, st)

/-- package.js registerProtocol step 2: the URL Protocol named value, written with
its result ignored. -/
def writeUrlProtocolMarker (env : SysEnv) (basePath : List Char) (st : RegistryState) :
    RegistryState :=
  if env.writeOk (basePath ++ "\\URL Protocol".toList) then
    setReg st (basePath ++ "\\URL Protocol".toList) []
  else st

/-- package.js registerProtocol (lines 246-280): the executable-existence check,
then the description write, the URL Protocol marker, and the
shell\open\command write, stopping at the first failure. -/
def registerProtocol (env : SysEnv) (protocol execPath : List Char) (st : RegistryState) :
    RegResult × RegistryState :=
  if env.fileExists execPath = false then
    ({ success := false, error := some ("Executable not found: ".toList ++ execPath) }, st)
  else
    match writeRegistry env ("HKCU:\\Software\\Classes\\".toList ++ protocol)
        ("URL:".toList ++ protocol ++ " Protocol".toList) st with
    | (descResult, st1) =>
        if descResult.success = false then
          ({ success := false,
             error := some ("Failed to set description: ".toList
               ++ descResult.error.getD []) }, st1)
        else
          match writeRegistry env
              ("HKCU:\\Software\\Classes\\".toList ++ protocol
                ++ "\\shell\\open\\command".toList)
              ('"' :: execPath ++ "\" \"--open-url\" \"--\" \"%1\"".toList)
              (writeUrlProtocolMarker env
                ("HKCU:\\Software\\Classes\\".toList ++ protocol) st1) with
          | (cmdResult, st2) =>
              if cmdResult.success = false then
                ({ success := false,
                   error := some ("Failed to set command: ".toList
                     ++ cmdResult.error.getD []) }, st2)
              else ({ success := true, error := none }, st2)

/-! ### Theorems -/

/-! #### List lemmas -/

theorem drop_len_append (s t : List Char) : (s ++ t).drop s.length = t := by
  induction s with
  | nil => rfl
  | cons c cs ih => simpa using ih

theorem take_len_append (s t : List Char) : (s ++ t).take s.length = s := by
  induction s with
  | nil => rfl
  | cons c cs ih => simpa using ih

theorem drop_len_succ_append (s : List Char) (a : Char) (t : List Char) :
    (s ++ a :: t).drop (s.length + 1) = t := by
  induction s with
  | nil => rfl
  | cons c cs ih =>
      show (c :: (cs ++ a :: t)).drop (cs.length + 1 + 1) = t
      rw [List.drop_succ_cons]
      exact ih

theorem takeWhile_append_stop (p : Char → Bool) (s : List Char) (a : Char) (t : List Char)
    (hs : ∀ c ∈ s, p c = true) (ha : p a = false) :
    (s ++ a :: t).takeWhile p = s := by
  induction s with
  | nil => simp [List.takeWhile, ha]
  | cons c cs ih =>
      have hc := hs c (by simp)
      simp only [List.cons_append, List.takeWhile_cons, hc, if_true]
      rw [ih (fun d hd => hs d (by simp [hd]))]

theorem takeWhile_all (p : Char → Bool) (l : List Char) (h : ∀ c ∈ l, p c = true) :
    l.takeWhile p = l := by
  induction l with
  | nil => rfl
  | cons c cs ih =>
      simp only [List.takeWhile_cons, h c (by simp), if_true]
      rw [ih (fun d hd => h d (by simp [hd]))]

theorem listStartsWith_append_self (l t : List Char) : listStartsWith l (l ++ t) = true := by
  induction l with
  | nil => rfl
  | cons c cs ih => simpa [listStartsWith] using ih

theorem listStartsWith_trans {a b l : List Char} (h1 : listStartsWith a b = true)
    (h2 : listStartsWith b l = true) : listStartsWith a l = true := by
  induction a generalizing b l with
  | nil => rfl
  | cons x xs ih =>
      cases b with
      | nil => simp [listStartsWith] at h1
      | cons y ys =>
          cases l with
          | nil => simp [listStartsWith] at h2
          | cons z zs =>
              simp only [listStartsWith, Bool.and_eq_true, beq_iff_eq] at h1 h2 ⊢
              exact ⟨h1.1.trans h2.1, ih h1.2 h2.2⟩

theorem listStartsWith_append_extend {a b : List Char} (t : List Char)
    (h : listStartsWith a b = true) : listStartsWith a (b ++ t) = true :=
  listStartsWith_trans h (listStartsWith_append_self b t)

theorem eq_append_drop_of_listStartsWith {p l : List Char}
    (h : listStartsWith p l = true) : l = p ++ l.drop p.length := by
  induction p generalizing l with
  | nil => rfl
  | cons c cs ih =>
      cases l with
      | nil => simp [listStartsWith] at h
      | cons d ds =>
          simp only [listStartsWith, Bool.and_eq_true, beq_iff_eq] at h
          have := ih h.2
          simp only [List.length_cons, List.cons_append, List.drop_succ_cons]
          exact congrArg₂ List.cons h.1.symm this

theorem listStartsWith_comparable {a b l : List Char} (ha : listStartsWith a l = true)
    (hb : listStartsWith b l = true) :
    (listStartsWith a b || listStartsWith b a) = true := by
  induction l generalizing a b with
  | nil =>
      cases a with
      | nil => simp [listStartsWith]
      | cons => simp [listStartsWith] at ha
  | cons c cs ih =>
      cases a with
      | nil => simp [listStartsWith]
      | cons x xs =>
          cases b with
          | nil => simp [listStartsWith]
          | cons y ys =>
              simp only [listStartsWith, Bool.and_eq_true, beq_iff_eq] at ha hb
              obtain ⟨hx, ha2⟩ := ha
              obtain ⟨hy, hb2⟩ := hb
              subst hx; subst hy
              have hrec := ih ha2 hb2
              simpa [listStartsWith] using hrec

theorem listStartsWith_append_of_longer {a b : List Char} (t : List Char)
    (hlen : a.length ≤ b.length) (h : listStartsWith a b = false) :
    listStartsWith a (b ++ t) = false := by
  induction a generalizing b with
  | nil => simp [listStartsWith] at h
  | cons x xs ih =>
      cases b with
      | nil => simp at hlen
      | cons y ys =>
          simp only [listStartsWith, Bool.and_eq_false_iff, beq_eq_false_iff_ne, ne_eq,
            List.cons_append] at h ⊢
          rcases h with h | h
          · exact Or.inl h
          · by_cases hxy : x = y
            · exact Or.inr (ih (by simpa using hlen) h)
            · exact Or.inl hxy

theorem find?_eq_some_of_unique {α : Type} (l : List α) (pred : α → Bool) (x : α)
    (hx : x ∈ l) (hpx : pred x = true)
    (huniq : ∀ y ∈ l, pred y = true → y = x) :
    l.find? pred = some x := by
  induction l with
  | nil => cases hx
  | cons a tl ih =>
      by_cases hpa : pred a = true
      · have hax : a = x := huniq a (by simp) hpa
        subst hax
        simp [List.find?, hpa]
      · have hpa' : pred a = false := by simpa [Bool.not_eq_true] using hpa
        have hxtl : x ∈ tl := by
          rcases List.mem_cons.mp hx with h | h
          · subst h; rw [hpx] at hpa'; cases hpa'
          · exact h
        rw [List.find?]
        simp only [hpa']
        exact ih hxtl (fun y hy hpy => huniq y (by simp [hy]) hpy)

/-! #### Regex building-block lemmas -/

theorem splitScheme_of_shape (s r : List Char) (hs : s ≠ [])
    (hcolon : ∀ c ∈ s, (c != ':') = true) :
    splitScheme (s ++ ':' :: r) = some (s, r) := by
  have htw : (s ++ ':' :: r).takeWhile (· != ':') = s :=
    takeWhile_append_stop _ s ':' r hcolon (by simp)
  simp only [splitScheme, htw, drop_len_append, drop_len_succ_append, if_neg hs]
  simp

theorem segSlash_of_shape (p rest : List Char) (hp : p ≠ [])
    (hslash : ∀ c ∈ p, (c != '/') = true) :
    segSlash (p ++ '/' :: rest) = some (p, rest) := by
  have htw : (p ++ '/' :: rest).takeWhile (· != '/') = p :=
    takeWhile_append_stop _ p '/' rest hslash (by simp)
  simp only [segSlash, htw, drop_len_append, drop_len_succ_append, if_neg hp]
  simp

theorem dropPrefixIf_append (p t : List Char) : dropPrefixIf p (p ++ t) = some t := by
  rw [dropPrefixIf]
  simp [listStartsWith_append_self, drop_len_append]

theorem dropPrefixIf_of_not (p l : List Char) (h : listStartsWith p l = false) :
    dropPrefixIf p l = none := by
  rw [dropPrefixIf]
  simp [h]

/-! #### Auth-callback lemmas -/

/-- Predicate stated from the specification words of claim C1: the URL's
provider/host component — the segment following the scheme delimiter (with or
without the double slash), up to the next slash — contains the substring
"authentication" case-insensitively. -/
def ProviderContainsAuthentication (url : List Char) : Prop :=
  ∃ scheme sep provider rest : List Char,
    (sep = ['/', '/'] ∨ sep = []) ∧
    scheme ≠ [] ∧ (∀ c ∈ scheme, c ≠ ':') ∧
    provider ≠ [] ∧ (∀ c ∈ provider, c ≠ '/') ∧
    listContainsSub "authentication".toList (provider.map Char.toLower) = true ∧
    url = scheme ++ ':' :: (sep ++ (provider ++ '/' :: rest))

theorem authCallbackProvider_of_shape (url scheme sep provider rest : List Char)
    (hsep : sep = ['/', '/'] ∨ sep = [])
    (hs : scheme ≠ []) (hs2 : ∀ c ∈ scheme, c ≠ ':')
    (hp : provider ≠ []) (hp2 : ∀ c ∈ provider, c ≠ '/')
    (hurl : url = scheme ++ ':' :: (sep ++ (provider ++ '/' :: rest))) :
    authCallbackProvider url = provider := by
  have hs2' : ∀ c ∈ scheme, (c != ':') = true := by
    intro c hc; simpa using hs2 c hc
  have hp2' : ∀ c ∈ provider, (c != '/') = true := by
    intro c hc; simpa using hp2 c hc
  have hseg : segSlash (provider ++ '/' :: rest) = some (provider, rest) :=
    segSlash_of_shape _ _ hp hp2'
  have hsplit : splitScheme url = some (scheme, sep ++ (provider ++ '/' :: rest)) := by
    rw [hurl]; exact splitScheme_of_shape _ _ hs hs2'
  rcases hsep with hsep | hsep
  · -- double-slash form: the first regex matches
    subst hsep
    rw [authCallbackProvider, matchAuthReg1, hsplit]
    simp only [List.cons_append, List.nil_append, List.take_succ_cons, List.take_zero,
      List.drop_succ_cons, List.drop_zero, if_true, hseg]
  · -- single-colon form: the first regex fails, the second matches
    subst hsep
    rcases List.exists_cons_of_ne_nil hp with ⟨pc, ptl, hpc⟩
    have hpcslash : pc ≠ '/' := hp2 pc (by simp [hpc])
    have htake : ((provider ++ '/' :: rest).take 2) ≠ ['/', '/'] := by
      subst hpc
      simp only [List.cons_append, List.take_succ_cons]
      intro hcontr
      exact hpcslash (by injection hcontr)
    rw [authCallbackProvider, matchAuthReg1, hsplit]
    simp only [List.nil_append, if_neg htake]
    rw [matchAuthReg2, hsplit]
    simp only [List.nil_append, hseg]

theorem isAuthCallbackUrl_of_provider (url : List Char)
    (h : ProviderContainsAuthentication url) : isAuthCallbackUrl url = true := by
  rcases h with ⟨scheme, sep, provider, rest, hsep, hs, hs2, hp, hp2, hinf, hurl⟩
  rw [isAuthCallbackUrl,
    authCallbackProvider_of_shape url scheme sep provider rest hsep hs hs2 hp hp2 hurl]
  exact hinf

/-! #### Claim C1 -/

/-- C1: for every URL whose provider/host component (the segment following the
scheme delimiter, up to the next slash) contains "authentication"
case-insensitively, and for every configured target protocol, the
classify-and-rewrite pipeline passes the URL through unchanged:
convertToTargetUrl returns its input, and the click handler leaves the click
to the browser whatever the native host replies. -/
theorem c1_auth_callback_pass_through (tp : Protocol) (url : List Char)
    (h : ProviderContainsAuthentication url) :
    convertToTargetUrl tp url = url ∧
    ∀ r, handleClick tp url r = ClickOutcome.browserDefault := by
  have hauth := isAuthCallbackUrl_of_provider url h
  constructor
  · rw [convertToTargetUrl, hauth]
    simp
  · intro r
    rw [handleClick, hauth]
    simp

/-- Witness for C1 at the GitHub-authentication callback example from the source
comments, with target protocol cursor. -/
theorem c1_witness :
    convertToTargetUrl Protocol.cursor
      "vscode://vscode.github-authentication/did-authenticate?code=1".toList
      = "vscode://vscode.github-authentication/did-authenticate?code=1".toList ∧
    handleClick Protocol.cursor
      "vscode://vscode.github-authentication/did-authenticate?code=1".toList
      NativeResponse.success = ClickOutcome.browserDefault :=
  ⟨(c1_auth_callback_pass_through Protocol.cursor _
    ⟨"vscode".toList, ['/', '/'], "vscode.github-authentication".toList,
      "did-authenticate?code=1".toList,
      Or.inl rfl, by decide, by decide, by decide, by decide, by decide, by decide⟩).1,
   (c1_auth_callback_pass_through Protocol.cursor _
    ⟨"vscode".toList, ['/', '/'], "vscode.github-authentication".toList,
      "did-authenticate?code=1".toList,
      Or.inl rfl, by decide, by decide, by decide, by decide, by decide, by decide⟩).2
     NativeResponse.success⟩

/-! #### Claim C3 -/

/-- C3: for every plain-protocol URL that is not an auth callback and does not
already use the target scheme, convertToTargetUrl replaces the source scheme
prefix with the target prefix — antigravity:// for antigravity, {target}: for
every other target — and preserves everything after the source scheme delimiter
verbatim. -/
theorem c3_plain_protocol_rewrite (tp : Protocol) (p rest : List Char)
    (hp : p ∈ VSCODE_PROTOCOLS)
    (hauth : isAuthCallbackUrl (p ++ rest) = false)
    (htgt : listStartsWith (protoName tp ++ [':']) (p ++ rest) = false) :
    convertToTargetUrl tp (p ++ rest) =
      (if tp = Protocol.antigravity then "antigravity://".toList
       else protoName tp ++ [':']) ++ rest := by
  have htgt2 : listStartsWith (protoName tp ++ [':', '/', '/']) (p ++ rest) = false := by
    by_contra hcontr
    have h2 : listStartsWith (protoName tp ++ [':', '/', '/']) (p ++ rest) = true := by
      revert hcontr; cases listStartsWith (protoName tp ++ [':', '/', '/']) (p ++ rest) <;> simp
    have hsub : listStartsWith (protoName tp ++ [':'])
        (protoName tp ++ [':', '/', '/']) = true := by
      have hshape : protoName tp ++ [':', '/', '/']
          = (protoName tp ++ [':']) ++ ['/', '/'] := by simp
      rw [hshape]
      exact listStartsWith_append_self _ _
    rw [listStartsWith_trans hsub h2] at htgt
    cases htgt
  have hpair : ∀ a ∈ VSCODE_PROTOCOLS, ∀ b ∈ VSCODE_PROTOCOLS,
      (listStartsWith a b || listStartsWith b a) = true → a = b := by decide
  have hppre : listStartsWith p (p ++ rest) = true := listStartsWith_append_self p rest
  have hfind : VSCODE_PROTOCOLS.find? (fun q => listStartsWith q (p ++ rest)) = some p := by
    apply find?_eq_some_of_unique _ _ p hp hppre
    intro q hq hqpre
    exact hpair q hq p hp (listStartsWith_comparable hqpre hppre)
  rw [convertToTargetUrl, hauth]
  simp only [if_false, htgt, htgt2, Bool.or_self, hfind]
  rw [drop_len_append]
  cases tp <;> simp [getProtocolPrefix, protoName]

/-- Witness for C3: the spec example input vscode:extension/ms-python.python with
target cursor yields cursor:extension/ms-python.python. -/
theorem c3_witness :
    convertToTargetUrl Protocol.cursor
      ("vscode:".toList ++ "extension/ms-python.python".toList)
      = (if Protocol.cursor = Protocol.antigravity then "antigravity://".toList
         else protoName Protocol.cursor ++ [':']) ++ "extension/ms-python.python".toList :=
  c3_plain_protocol_rewrite Protocol.cursor "vscode:".toList
    "extension/ms-python.python".toList (by decide) (by decide) (by decide)

/-! #### Claim C8 -/

/-- C8: for every target protocol and every URL already using the target scheme,
convertToTargetUrl returns the input unchanged. -/
theorem c8_target_scheme_noop (tp : Protocol) (url : List Char)
    (h : listStartsWith (protoName tp ++ [':']) url = true) :
    convertToTargetUrl tp url = url := by
  rw [convertToTargetUrl]
  by_cases hauth : isAuthCallbackUrl url
  · simp [hauth]
  · simp [hauth, h]

/-- Witness for C8: an antigravity URL is left unchanged when the target is
antigravity. -/
theorem c8_witness :
    convertToTargetUrl Protocol.antigravity "antigravity://extension/foo.bar".toList
      = "antigravity://extension/foo.bar".toList :=
  c8_target_scheme_noop Protocol.antigravity _ (by decide)

/-! #### MCP lemmas for claim C4 -/

theorem matchServersAt_nil : matchServersAt [] = none := by decide

theorem matchServersAt_of_not (l : List Char)
    (h : listStartsWith "/servers/".toList l = false) : matchServersAt l = none := by
  rw [matchServersAt, dropPrefixIf_of_not _ _ h]

theorem matchServersAt_shape (id name : List Char) (hid : id ≠ [])
    (hid2 : ∀ c ∈ id, (c != '/') = true) (hn : name ≠ [])
    (hn2 : ∀ c ∈ name, (c != '/' && c != '?' && c != '#') = true) :
    matchServersAt ("/servers/".toList ++ (id ++ '/' :: name)) = some name := by
  have htw : name.takeWhile (fun c => c != '/' && c != '?' && c != '#') = name :=
    takeWhile_all _ name hn2
  rw [matchServersAt, dropPrefixIf_append]
  simp only [segSlash_of_shape id name hid hid2, htw, if_neg hn]

theorem lastServers_all_none (l : List Char)
    (h : ∀ j, matchServersAt (l.drop j) = none) : lastServers l = none := by
  induction l with
  | nil => rfl
  | cons c cs ih =>
      have h0 := h 0
      rw [List.drop_zero] at h0
      have htl : lastServers cs = none := ih (fun j => by
        have := h (j + 1)
        simpa using this)
      rw [lastServers]
      by_cases hlt : isLineTerm c = true
      · simp [hlt, h0]
      · simp only [Bool.not_eq_true] at hlt
        simp [hlt, htl, h0]

theorem lastServers_found (l : List Char) (i : Nat) (n : List Char)
    (hterm : ∀ c ∈ l.take i, isLineTerm c = false)
    (hmatch : matchServersAt (l.drop i) = some n)
    (hafter : ∀ j, i < j → matchServersAt (l.drop j) = none) :
    lastServers l = some n := by
  induction l generalizing i with
  | nil =>
      rw [List.drop_nil, matchServersAt_nil] at hmatch
      cases hmatch
  | cons c cs ih =>
      cases i with
      | zero =>
          rw [List.drop_zero] at hmatch
          have htl : lastServers cs = none :=
            lastServers_all_none cs (fun j => by
              have := hafter (j + 1) (Nat.succ_pos j)
              simpa using this)
          rw [lastServers]
          by_cases hlt : isLineTerm c = true
          · simp [hlt, hmatch]
          · simp only [Bool.not_eq_true] at hlt
            simp [hlt, htl, hmatch]
      | succ i2 =>
          have hc : isLineTerm c = false := hterm c (by simp [List.take_succ_cons])
          have hterm' : ∀ d ∈ cs.take i2, isLineTerm d = false := fun d hd =>
            hterm d (by simp [List.take_succ_cons, hd])
          have hmatch' : matchServersAt (cs.drop i2) = some n := by simpa using hmatch
          have hafter' : ∀ j, i2 < j → matchServersAt (cs.drop j) = none := fun j hj => by
            have := hafter (j + 1) (by omega)
            simpa using this
          have htl : lastServers cs = some n := ih i2 hterm' hmatch' hafter'
          rw [lastServers]
          simp [hc, htl]

/-! #### Claim C4 -/

/-- C4 counterexample: cursor is in the supported-IDE scheme set, yet a
cursor:mcp/... URL is not classified as an MCP install URL — isMcpUrl only
accepts the vscode and vscode-insiders schemes. -/
theorem c4_mcp_scheme_counterexample :
    Protocol.cursor ∈ SUPPORTED_PROTOCOLS ∧
    isMcpUrl ("cursor".toList ++ ":mcp/".toList ++ "by-name/foo".toList) = false := by
  decide

/-- C4 amended: with the scheme set narrowed to vscode and vscode-insiders (the
set the code actually accepts) — every URL of the form scheme:mcp/... is
classified as mcp-install; the server name is extracted from a by-name/{name}
path segment, or from the trailing segment of a .../servers/{id}/{name} path
shape (reached after the literal api.mcp.github.com host, with the greedy dot
unable to cross line terminators, and the /servers/ marker occurring at a unique
position); and when neither shape matches, the extraction yields null. -/
theorem c4_mcp_classify_extract_amended :
    (∀ s rest, (s = "vscode".toList ∨ s = "vscode-insiders".toList) →
      isMcpUrl (s ++ ":mcp/".toList ++ rest) = true) ∧
    (∀ s name rest2, (s = "vscode".toList ∨ s = "vscode-insiders".toList) →
      name ≠ [] → (∀ c ∈ name, (c != '/' && c != '?' && c != '#') = true) →
      (rest2 = [] ∨ ∃ c t, rest2 = c :: t ∧ (c != '/' && c != '?' && c != '#') = false) →
      extractMcpServerName (s ++ ":mcp/by-name/".toList ++ (name ++ rest2))
        = some name) ∧
    (∀ s mid id name, (s = "vscode".toList ∨ s = "vscode-insiders".toList) →
      id ≠ [] → (∀ c ∈ id, (c != '/') = true) →
      name ≠ [] → (∀ c ∈ name, (c != '/' && c != '?' && c != '#') = true) →
      (∀ c ∈ mid, isLineTerm c = false) →
      (∀ j, listStartsWith "/servers/".toList
          ((mid ++ ("/servers/".toList ++ (id ++ '/' :: name))).drop j) = true →
          j = mid.length) →
      extractMcpServerName
        (s ++ ":mcp/api.mcp.github.com".toList
          ++ (mid ++ ("/servers/".toList ++ (id ++ '/' :: name)))) = some name) ∧
    (∀ url, byNameMatch url = none → apiMatch url = none →
      extractMcpServerName url = none) := by
  refine ⟨?_, ?_, ?_, ?_⟩
  · -- classification
    intro s rest hsch
    rcases hsch with rfl | rfl
    · have hcat : ("vscode".toList ++ ":mcp/".toList) = "vscode:mcp/".toList := by decide
      rw [isMcpUrl, hcat, listStartsWith_append_self]
      simp
    · have hcat : ("vscode-insiders".toList ++ ":mcp/".toList)
          = "vscode-insiders:mcp/".toList := by decide
      rw [isMcpUrl, hcat, listStartsWith_append_self]
      simp
  · -- by-name extraction
    intro s name rest2 hsch hn hn2 hrest
    have htw : (name ++ rest2).takeWhile (fun c => c != '/' && c != '?' && c != '#')
        = name := by
      rcases hrest with rfl | ⟨c, t, rfl, hc⟩
      · rw [List.append_nil]; exact takeWhile_all _ name hn2
      · exact takeWhile_append_stop _ name c t hn2 hc
    rcases hsch with rfl | rfl
    · have hcat : ("vscode".toList ++ ":mcp/by-name/".toList)
          = "vscode:mcp/by-name/".toList := by decide
      rw [hcat]
      have hmcp : isMcpUrl ("vscode:mcp/by-name/".toList ++ (name ++ rest2)) = true := by
        rw [isMcpUrl, listStartsWith_append_extend _ (by decide)]
        simp
      have hbn : byNameMatch ("vscode:mcp/by-name/".toList ++ (name ++ rest2))
          = some name := by
        rw [byNameMatch, dropPrefixIf_append]
        simp only [htw, if_neg hn]
      rw [extractMcpServerName, hmcp]
      simp only [Bool.true_eq_false, if_false, hbn]
    · have hcat : ("vscode-insiders".toList ++ ":mcp/by-name/".toList)
          = "vscode-insiders:mcp/by-name/".toList := by decide
      rw [hcat]
      have hmcp : isMcpUrl ("vscode-insiders:mcp/by-name/".toList ++ (name ++ rest2))
          = true := by
        rw [isMcpUrl]
        rw [show listStartsWith "vscode-insiders:mcp/".toList
          ("vscode-insiders:mcp/by-name/".toList ++ (name ++ rest2)) = true from
          listStartsWith_append_extend _ (by decide)]
        simp
      have hfail : dropPrefixIf "vscode:mcp/by-name/".toList
          ("vscode-insiders:mcp/by-name/".toList ++ (name ++ rest2)) = none :=
        dropPrefixIf_of_not _ _ (listStartsWith_append_of_longer _ (by decide) (by decide))
      have hbn : byNameMatch ("vscode-insiders:mcp/by-name/".toList ++ (name ++ rest2))
          = some name := by
        rw [byNameMatch, hfail, dropPrefixIf_append]
        simp only [htw, if_neg hn]
      rw [extractMcpServerName, hmcp]
      simp only [Bool.true_eq_false, if_false, hbn]
  · -- servers-shape extraction
    intro s mid id name hsch hid hid2 hn hn2 hmid huniq
    have hbody : lastServers (mid ++ ("/servers/".toList ++ (id ++ '/' :: name)))
        = some name := by
      apply lastServers_found _ mid.length
      · rw [take_len_append]; exact hmid
      · rw [drop_len_append]; exact matchServersAt_shape id name hid hid2 hn hn2
      · intro j hj
        by_cases hpre : listStartsWith "/servers/".toList
            ((mid ++ ("/servers/".toList ++ (id ++ '/' :: name))).drop j) = true
        · exact absurd (huniq j hpre) (by omega)
        · have hpre' : listStartsWith "/servers/".toList
              ((mid ++ ("/servers/".toList ++ (id ++ '/' :: name))).drop j) = false := by
            revert hpre
            cases listStartsWith "/servers/".toList
              ((mid ++ ("/servers/".toList ++ (id ++ '/' :: name))).drop j) <;> simp
          exact matchServersAt_of_not _ hpre'
    rcases hsch with rfl | rfl
    · have hcat : ("vscode".toList ++ ":mcp/api.mcp.github.com".toList)
          = "vscode:mcp/api.mcp.github.com".toList := by decide
      rw [hcat]
      have hmcp : isMcpUrl ("vscode:mcp/api.mcp.github.com".toList
          ++ (mid ++ ("/servers/".toList ++ (id ++ '/' :: name)))) = true := by
        rw [isMcpUrl, listStartsWith_append_extend _ (by decide)]
        simp
      have hbn : byNameMatch ("vscode:mcp/api.mcp.github.com".toList
          ++ (mid ++ ("/servers/".toList ++ (id ++ '/' :: name)))) = none := by
        rw [byNameMatch,
          dropPrefixIf_of_not _ _ (listStartsWith_append_of_longer _ (by decide) (by decide)),
          dropPrefixIf_of_not _ _ (listStartsWith_append_of_longer _ (by decide) (by decide))]
      have hapi : apiMatch ("vscode:mcp/api.mcp.github.com".toList
          ++ (mid ++ ("/servers/".toList ++ (id ++ '/' :: name)))) = some name := by
        rw [apiMatch, dropPrefixIf_append]
        exact hbody
      rw [extractMcpServerName, hmcp]
      simp only [Bool.true_eq_false, if_false, hbn, hapi]
    · have hcat : ("vscode-insiders".toList ++ ":mcp/api.mcp.github.com".toList)
          = "vscode-insiders:mcp/api.mcp.github.com".toList := by decide
      rw [hcat]
      have hmcp : isMcpUrl ("vscode-insiders:mcp/api.mcp.github.com".toList
          ++ (mid ++ ("/servers/".toList ++ (id ++ '/' :: name)))) = true := by
        rw [isMcpUrl]
        rw [show listStartsWith "vscode-insiders:mcp/".toList
          ("vscode-insiders:mcp/api.mcp.github.com".toList
            ++ (mid ++ ("/servers/".toList ++ (id ++ '/' :: name)))) = true from
          listStartsWith_append_extend _ (by decide)]
        simp
      have hbn : byNameMatch ("vscode-insiders:mcp/api.mcp.github.com".toList
          ++ (mid ++ ("/servers/".toList ++ (id ++ '/' :: name)))) = none := by
        rw [byNameMatch,
          dropPrefixIf_of_not _ _ (listStartsWith_append_of_longer _ (by decide) (by decide)),
          dropPrefixIf_of_not _ _ (listStartsWith_append_of_longer _ (by decide) (by decide))]
      have hapi : apiMatch ("vscode-insiders:mcp/api.mcp.github.com".toList
          ++ (mid ++ ("/servers/".toList ++ (id ++ '/' :: name)))) = some name := by
        rw [apiMatch,
          dropPrefixIf_of_not _ _ (listStartsWith_append_of_longer _ (by decide) (by decide)),
          dropPrefixIf_append]
        exact hbody
      rw [extractMcpServerName, hmcp]
      simp only [Bool.true_eq_false, if_false, hbn, hapi]
  · -- null when neither shape matches
    intro url h1 h2
    rw [extractMcpServerName]
    by_cases hmcp : isMcpUrl url = false
    · simp [hmcp]
    · have hmcp' : isMcpUrl url = true := by
        revert hmcp; cases isMcpUrl url <;> simp
      simp [hmcp', h1, h2]

/-- Witness for C4 (amended): concrete instances of all four conjuncts. -/
theorem c4_witness :
    isMcpUrl ("vscode".toList ++ ":mcp/".toList ++ "by-name/huggingface".toList) = true ∧
    extractMcpServerName
      ("vscode".toList ++ ":mcp/by-name/".toList ++ ("huggingface".toList ++ []))
      = some "huggingface".toList ∧
    extractMcpServerName
      ("vscode-insiders".toList ++ ":mcp/api.mcp.github.com".toList
        ++ ("/v0".toList ++ ("/servers/".toList ++ ("abc".toList ++ '/' :: "hf-mcp-server".toList))))
      = some "hf-mcp-server".toList ∧
    extractMcpServerName "vscode:mcp/install?config=1".toList = none := by
  refine ⟨c4_mcp_classify_extract_amended.1 _ _ (Or.inl rfl),
    c4_mcp_classify_extract_amended.2.1 _ _ _ (Or.inl rfl) (by decide) (by decide)
      (Or.inl rfl),
    c4_mcp_classify_extract_amended.2.2.1 "vscode-insiders".toList "/v0".toList
      "abc".toList "hf-mcp-server".toList (Or.inr rfl) (by decide) (by decide)
      (by decide) (by decide) (by decide) ?_,
    c4_mcp_classify_extract_amended.2.2.2 _ (by decide) (by decide)⟩
  intro j hj
  by_cases hle : j < 30
  · have hball : ∀ k, k < 30 → listStartsWith "/servers/".toList
        (("/v0".toList ++ ("/servers/".toList
          ++ ("abc".toList ++ '/' :: "hf-mcp-server".toList))).drop k) = true →
        k = ("/v0".toList).length := by decide
    exact hball j hle hj
  · exfalso
    have hlen : ("/v0".toList ++ ("/servers/".toList
        ++ ("abc".toList ++ '/' :: "hf-mcp-server".toList))).length ≤ j := by
      have : ("/v0".toList ++ ("/servers/".toList
          ++ ("abc".toList ++ '/' :: "hf-mcp-server".toList))).length = 29 := by decide
      omega
    rw [List.drop_of_length_le hlen] at hj
    exact absurd hj (by decide)

/-! #### Claim C2 -/

/-- C2 counterexample: for target cursor and extension id foo.bar, the fallback
URL cursor:extension/foo.bar is not re-classified as an extension install —
parseVSCodeExtensionId rejects the cursor scheme, so no id is extracted. -/
theorem c2_extension_roundtrip_counterexample :
    Protocol.cursor ∈ SUPPORTED_PROTOCOLS ∧
    parseVSCodeExtensionId (extensionFallbackUrl Protocol.cursor "foo.bar".toList)
      = none := by
  decide

/-- C2 amended: the round-trip holds exactly for the targets whose scheme is in
the VS Code extension scheme set (vscode, vscode-insiders): for those targets,
re-classifying the fallback URL recovers the same extension id, provided the id
is nonempty and free of the regex stop characters. -/
theorem c2_extension_roundtrip_amended (tp : Protocol) (extensionId : List Char)
    (htp : tp = Protocol.vscode ∨ tp = Protocol.vscodeInsiders)
    (hid : extensionId ≠ [])
    (hid2 : ∀ c ∈ extensionId, (c != '?' && c != '#') = true) :
    parseVSCodeExtensionId (extensionFallbackUrl tp extensionId) = some extensionId := by
  have htw : extensionId.takeWhile (fun c => c != '?' && c != '#') = extensionId :=
    takeWhile_all _ _ hid2
  rcases htp with rfl | rfl
  · have h1 : extensionFallbackUrl Protocol.vscode extensionId
        = "vscode".toList ++ ':' :: ("extension/".toList ++ extensionId) := rfl
    rw [h1, parseVSCodeExtensionId, splitScheme_of_shape _ _ (by decide) (by decide)]
    have htake : ("extension/".toList ++ extensionId).take 2 = ['e', 'x'] := rfl
    have hcond : ¬ (("extension/".toList ++ extensionId).take 2 = ['/', '/']) := by
      rw [htake]; decide
    simp only [if_neg hcond, dropPrefixIf_append, htw, if_neg hid,
      (by decide : VSCODE_EXTENSION_SCHEMES.contains "vscode".toList = true),
      eq_self_iff_true, if_true]
  · have h1 : extensionFallbackUrl Protocol.vscodeInsiders extensionId
        = "vscode-insiders".toList ++ ':' :: ("extension/".toList ++ extensionId) := rfl
    rw [h1, parseVSCodeExtensionId, splitScheme_of_shape _ _ (by decide) (by decide)]
    have htake : ("extension/".toList ++ extensionId).take 2 = ['e', 'x'] := rfl
    have hcond : ¬ (("extension/".toList ++ extensionId).take 2 = ['/', '/']) := by
      rw [htake]; decide
    simp only [if_neg hcond, dropPrefixIf_append, htw, if_neg hid,
      (by decide : VSCODE_EXTENSION_SCHEMES.contains "vscode-insiders".toList = true),
      eq_self_iff_true, if_true]

/-- Witness for C2 (amended) at target vscode with id ms-python.python. -/
theorem c2_witness :
    parseVSCodeExtensionId (extensionFallbackUrl Protocol.vscode "ms-python.python".toList)
      = some "ms-python.python".toList :=
  c2_extension_roundtrip_amended Protocol.vscode _ (Or.inl rfl) (by decide) (by decide)

/-! #### Claim C5 -/

/-- C5: the marketplace vspackage example — the classifier recognizes the URL as
a VSIX download, extracts publisher ms-python, name python, version 2024.1.0,
and the rewriter outputs the antigravity install URL carrying the form-encoded
original URL plus the name and version parameters; without extracted info, the
name and version parameters are absent. -/
theorem c5_marketplace_vsix_example :
    isVsixUrl "https://marketplace.visualstudio.com/_apis/public/gallery/publishers/ms-python/vsextensions/python/2024.1.0/vspackage".toList = true ∧
    parseExtensionFromVsixUrl "https://marketplace.visualstudio.com/_apis/public/gallery/publishers/ms-python/vsextensions/python/2024.1.0/vspackage".toList
      = some ⟨"ms-python".toList, "python".toList, some "2024.1.0".toList⟩ ∧
    buildVsixInstallUrl Protocol.antigravity
      "https://marketplace.visualstudio.com/_apis/public/gallery/publishers/ms-python/vsextensions/python/2024.1.0/vspackage".toList
      (parseExtensionFromVsixUrl "https://marketplace.visualstudio.com/_apis/public/gallery/publishers/ms-python/vsextensions/python/2024.1.0/vspackage".toList)
      = "antigravity://extension/install?url=https%3A%2F%2Fmarketplace.visualstudio.com%2F_apis%2Fpublic%2Fgallery%2Fpublishers%2Fms-python%2Fvsextensions%2Fpython%2F2024.1.0%2Fvspackage&name=ms-python.python&version=2024.1.0".toList ∧
    buildVsixInstallUrl Protocol.antigravity
      "https://marketplace.visualstudio.com/_apis/public/gallery/publishers/ms-python/vsextensions/python/2024.1.0/vspackage".toList
      none
      = "antigravity://extension/install?url=https%3A%2F%2Fmarketplace.visualstudio.com%2F_apis%2Fpublic%2Fgallery%2Fpublishers%2Fms-python%2Fvsextensions%2Fpython%2F2024.1.0%2Fvspackage".toList := by
  decide

/-! #### Claim C7 -/

/-- C7: the insiders.vscode.dev redirect example — the percent-encoded inner URL
in the url query parameter is decoded and its scheme replaced, giving
windsurf:extension/foo.bar for target windsurf. -/
theorem c7_dev_redirect_example :
    convertVSCodeDevToProtocol Protocol.windsurf
      "https://insiders.vscode.dev/redirect?url=vscode%3Aextension%2Ffoo.bar".toList
      = some "windsurf:extension/foo.bar".toList := by
  decide

/-! #### Claim C6 -/

/-- C6: clicking vscode:mcp/by-name/huggingface with target antigravity produces
the secondary show-instructions outcome referencing the huggingface MCP server
repository and performs no URL rewrite, for every native-host reply; and for any
MCP-classified click whose extracted server name is absent from the static
table, the click is intercepted but no outcome is produced. -/
theorem c6_mcp_instructions_example :
    (∀ r, handleClick Protocol.antigravity "vscode:mcp/by-name/huggingface".toList r
      = ClickOutcome.mcpInstructions "huggingface".toList
          "https://github.com/huggingface/hf-mcp-server".toList) ∧
    (∀ href serverName r, extractMcpServerName href = some serverName →
      MCP_REPO_MAP serverName = none →
      isAuthCallbackUrl href = false →
      parseVSCodeExtensionId href = none →
      isVSCodeDevRedirectUrl href = false →
      isVsixUrl href = false →
      handleClick Protocol.antigravity href r = ClickOutcome.intercepted) := by
  constructor
  · intro r
    cases r <;> decide
  · intro href serverName r hx hmap hauth hpid hdev hvsix
    have hmcp : isMcpUrl href = true := by
      by_contra hc
      have hmf : isMcpUrl href = false := by
        revert hc; cases isMcpUrl href <;> simp
      rw [extractMcpServerName, hmf] at hx
      simp at hx
    simp [handleClick, hauth, hpid, hdev, hvsix, hmcp, hx, hmap]

/-- Witness for C6: the huggingface example and an absent-name example. -/
theorem c6_witness :
    handleClick Protocol.antigravity "vscode:mcp/by-name/huggingface".toList
      NativeResponse.success
      = ClickOutcome.mcpInstructions "huggingface".toList
          "https://github.com/huggingface/hf-mcp-server".toList ∧
    handleClick Protocol.antigravity "vscode:mcp/by-name/notinmap".toList
      NativeResponse.success = ClickOutcome.intercepted :=
  ⟨c6_mcp_instructions_example.1 NativeResponse.success,
   c6_mcp_instructions_example.2 "vscode:mcp/by-name/notinmap".toList
     "notinmap".toList NativeResponse.success
     (by decide) (by decide) (by decide) (by decide) (by decide) (by decide)⟩

/-! #### Claim C9 -/

/-- C9: classification never throws on malformed URLs — whenever the platform
URL parser fails, isVsixUrl returns false, parseExtensionFromVsixUrl returns
null, and convertVSCodeDevToProtocol returns null for every target protocol;
each function catches its own parse failure. -/
theorem c9_malformed_never_throw (url : List Char) (h : urlParse url = none) :
    isVsixUrl url = false ∧ parseExtensionFromVsixUrl url = none ∧
    ∀ tp, convertVSCodeDevToProtocol tp url = none := by
  refine ⟨?_, ?_, ?_⟩
  · rw [isVsixUrl, h]
  · rw [parseExtensionFromVsixUrl, h]
  · intro tp
    rw [convertVSCodeDevToProtocol, h]

/-- Witness for C9 at a colon-free malformed input. -/
theorem c9_witness :
    isVsixUrl "not a url".toList = false ∧
    parseExtensionFromVsixUrl "not a url".toList = none ∧
    convertVSCodeDevToProtocol Protocol.windsurf "not a url".toList = none :=
  ⟨(c9_malformed_never_throw _ (by decide)).1,
   (c9_malformed_never_throw _ (by decide)).2.1,
   (c9_malformed_never_throw _ (by decide)).2.2 Protocol.windsurf⟩

/-! #### Claim C10 -/

/-- C10: for every environment, protocol and executable path that does not exist,
registerProtocol returns success false with an error naming the missing
executable, and the registry state is unchanged — the existence check precedes
every write. -/
theorem c10_register_missing_exe (env : SysEnv) (protocol execPath : List Char)
    (st : RegistryState) (h : env.fileExists execPath = false) :
    registerProtocol env protocol execPath st
      = ({ success := false,
           error := some ("Executable not found: ".toList ++ execPath) }, st) := by
  rw [registerProtocol, h]
  simp

/-- Witness for C10 at a concrete missing Cursor executable. -/
theorem c10_witness :
    registerProtocol ⟨fun _ => false, fun _ => true, fun _ => []⟩ "cursor".toList
      "C:\\missing\\Cursor.exe".toList ⟨[]⟩
      = ({ success := false,
           error := some ("Executable not found: ".toList
             ++ "C:\\missing\\Cursor.exe".toList) }, ⟨[]⟩) :=
  c10_register_missing_exe _ _ _ _ rfl
